import Mathlib

/-!
Verification development for the `text2num` repository
(`src/text_to_num/lang/dutch.py` and `src/text_to_num/lang/postprocess.py`).

Strings are modelled as `List Char`; a Python `str` value `s` corresponds to
`s.toList`.  Python's `str.lower` is modelled by `toLowerCh`, which covers the
ASCII range and the accented Latin letters that occur in the two modules'
vocabularies and patterns ('É', 'Ë', 'Í', 'Ó', 'Á', 'Ú', 'Ñ'); on every other
character it is the identity, exactly like `str.lower` on the characters
actually reachable here.  The regular expressions of the source are
hand-compiled into matcher functions that follow Python `re` semantics
(leftmost scan, alternatives tried left to right, greedy optionals with
backtracking); `\w` is modelled by `isWordCh` (ASCII alphanumerics, the
underscore and the accented letters above), `\s` by `isPySpace` (the six ASCII
whitespace characters).
-/

/-- Model of Python `str.isdigit`-style `\d` (ASCII digits, which are the only
digits reachable in this code base). -/
def isDigitCh (c : Char) : Bool := c.isDigit

/-- Model of the `re` class `\s` (ASCII whitespace). -/
def isPySpace (c : Char) : Bool :=
  c = ' ' || c = '\t' || c = '\n' || c = '\x0b' || c = '\x0c' || c = '\r'

/-- Model of the `re` class `\w` on the characters reachable in this code
base: ASCII alphanumerics, `_`, and the accented Latin letters used by the
Dutch and Spanish vocabularies. -/
def isWordCh (c : Char) : Bool :=
  c.isAlphanum || c = '_' ||
  c = 'é' || c = 'ë' || c = 'í' || c = 'ó' || c = 'á' || c = 'ú' || c = 'ñ' ||
  c = 'É' || c = 'Ë' || c = 'Í' || c = 'Ó' || c = 'Á' || c = 'Ú' || c = 'Ñ'

/-- Model of Python `str.lower` on the characters reachable in this code
base. -/
def toLowerCh (c : Char) : Char :=
  match c with
  | 'É' => 'é' | 'Ë' => 'ë' | 'Í' => 'í' | 'Ó' => 'ó'
  | 'Á' => 'á' | 'Ú' => 'ú' | 'Ñ' => 'ñ'
  | _ => c.toLower

/-- `str.lower` lifted to strings. -/
def lowerStr (s : List Char) : List Char := s.map toLowerCh

/-!
## Lexicon of `dutch.py` (module-level constants, built once on import)

Python dicts preserve insertion order and all insertions below use fresh keys,
so each dict is modelled as an association list in insertion order.
-/

/-- `MULTIPLIERS` of dutch.py. -/
def MULTIPLIERS : List (List Char × Nat) :=
  [("duizend".toList, 1000),
   ("miljoen".toList, 1000000),
   ("miljard".toList, 1000000000),
   ("biljoen".toList, 1000000000000),
   ("biljard".toList, 1000000000000000),
   ("triljoen".toList, 1000000000000000000),
   ("triljard".toList, 1000000000000000000000)]

/-- `UNITS` of dutch.py, including the `"een"` variant appended last. -/
def UNITS : List (List Char × Nat) :=
  [("één".toList, 1), ("twee".toList, 2), ("drie".toList, 3),
   ("vier".toList, 4), ("vijf".toList, 5), ("zes".toList, 6),
   ("zeven".toList, 7), ("acht".toList, 8), ("negen".toList, 9),
   ("een".toList, 1)]

/-- The initial `STENS` comprehension of dutch.py (10..19). -/
def STENS0 : List (List Char × Nat) :=
  [("tien".toList, 10), ("elf".toList, 11), ("twaalf".toList, 12),
   ("dertien".toList, 13), ("veertien".toList, 14), ("vijftien".toList, 15),
   ("zestien".toList, 16), ("zeventien".toList, 17), ("achttien".toList, 18),
   ("negentien".toList, 19)]

/-- `MTENS` of dutch.py. -/
def MTENS : List (List Char × Nat) :=
  [("twintig".toList, 20), ("dertig".toList, 30), ("veertig".toList, 40),
   ("vijftig".toList, 50), ("zestig".toList, 60), ("zeventig".toList, 70),
   ("tachtig".toList, 80), ("negentig".toList, 90)]

/-- The composed tens-unit entries added to `STENS` by the module-level loop
`for w10, v10 in MTENS.items(): for w1, v1 in UNITS.items(): ...`:
`w1 + "en" + w10`, plus `w1 + "ën" + w10` when `w1` ends in `"e"`. -/
def COMPOSED_STENS : List (List Char × Nat) :=
  MTENS.flatMap (fun p =>
    UNITS.flatMap (fun q =>
      (q.1 ++ "en".toList ++ p.1, p.2 + q.2) ::
        (if q.1.getLast? = some 'e' then
          [(q.1 ++ "ën".toList ++ p.1, p.2 + q.2)]
        else [])))

/-- `STENS` after the module-level loop has run. -/
def STENS : List (List Char × Nat) := STENS0 ++ COMPOSED_STENS

/-- `HUNDRED` of dutch.py. -/
def HUNDRED : List (List Char × Nat) := [("honderd".toList, 100)]

/-- `NUMBERS = MULTIPLIERS | UNITS | STENS | MTENS | HUNDRED` (dict updates
with pairwise fresh keys, hence concatenation in insertion order). -/
def NUMBERS : List (List Char × Nat) :=
  MULTIPLIERS ++ UNITS ++ STENS ++ MTENS ++ HUNDRED

/-- Stable insertion of a word into a list sorted by decreasing length
(equal lengths keep their existing order, as in Python's stable `sorted`). -/
def insertByLen (w : List Char) : List (List Char) → List (List Char)
  | [] => [w]
  | x :: xs => if w.length < x.length then x :: insertByLen w xs else w :: x :: xs

/-- Stable sort by decreasing word length, modelling
`sorted(..., key=lambda kv: len(kv[0]), reverse=True)`. -/
def sortByLenDesc : List (List Char) → List (List Char)
  | [] => []
  | x :: xs => insertByLen x (sortByLenDesc xs)

/-- Key list of `ALL_WORDS_SORTED_REVERSE`: the keys of
`{"en": None, "nul": 0, **NUMBERS}` sorted stably by decreasing length.
The dict's values are never consulted by `split_number_word`, so only the
keys are modelled. -/
def ALL_WORDS_SORTED_REVERSE : List (List Char) :=
  sortByLenDesc ("en".toList :: "nul".toList :: NUMBERS.map (fun p => p.1))

/-- Key list of `Dutch.NUMBER_DICT_NL = {"nul": 0, **NUMBERS}` (only key
membership is consulted by `ord2card`). -/
def NUMBER_DICT_NL_KEYS : List (List Char) :=
  "nul".toList :: NUMBERS.map (fun p => p.1)

/-- `Dutch.ORDINALS_FIXED_NL` exactly as the class body leaves it: the first
comprehension over `UNITS` is immediately overwritten by the comprehension
over `STENS`, after which the four explicit assignments append fresh keys.
Note that the map goes from cardinal surface form to ordinal surface form. -/
def ORDINALS_FIXED_NL : List (List Char × List Char) :=
  STENS.map (fun p => (p.1, p.1 ++ "de".toList)) ++
    [("nul".toList, "nulde".toList),
     ("één".toList, "eerste".toList),
     ("drie".toList, "derde".toList),
     ("acht".toList, "achtste".toList)]

/-!
## `Dutch.split_number_word`

The `while len(text) > 0` loop is modelled by `splitStep` (one loop
iteration) driven by `splitRunF` with fuel.  Each iteration strictly
shortens `text`, so fuel `text.length` always runs the loop to completion;
`split_number_word` supplies exactly that fuel.

The accumulating result string receives each emitted item followed by a
single `" "`, and no emitted item is empty or contains a space; the result
is therefore modelled as the list of emitted items (sub-words and literal
spans), with `resultLen` recovering the Python string length.
-/

/-- Loop state of `split_number_word`: the remaining `text`, the side buffer
`invalid_word`, and the emitted items of `result`. -/
structure SplitState where
  text : List Char
  invalid : List Char
  result : List (List Char)
deriving Repr, DecidableEq

/-- Python length of the accumulated `result` string (each item is written
with one trailing space). -/
def resultLen (r : List (List Char)) : Nat := (r.map (fun w => w.length + 1)).sum

/-- `if len(invalid_word) > 0: result += invalid_word + " "`. -/
def flushInvalid (invalid : List Char) : List (List Char) :=
  if invalid = [] then [] else [invalid]

/-- One alternative of the anchored regex
`^(ster|stes|sten|ste)(\s|$)`: if `alt` starts `text` and is followed by
whitespace or the end, return `match.span()[1]` (the consumed whitespace
character, if any, is part of the match). -/
def ordAltEnd (alt : List Char) (text : List Char) : Option Nat :=
  if alt.isPrefixOf text then
    match text.drop alt.length with
    | [] => some alt.length
    | c :: _ => if isPySpace c then some (alt.length + 1) else none
  else none

/-- `re.search(LARGE_ORDINAL_SUFFIXES_NL, text)`: the anchored alternatives
are tried left to right with backtracking into `(\s|$)`. -/
def ordMatchEnd (text : List Char) : Option Nat :=
  match ordAltEnd ("ster".toList) text with
  | some e => some e
  | none =>
    match ordAltEnd ("stes".toList) text with
    | some e => some e
    | none =>
      match ordAltEnd ("sten".toList) text with
      | some e => some e
      | none => ordAltEnd ("ste".toList) text

/-- The guarded ordinal-suffix probe of the loop:
`if len(result) > 3 and text.startswith("ste"): ord_match = re.search(...)`. -/
def ordSuffixEnd (st : SplitState) : Option Nat :=
  if 3 < resultLen st.result ∧ ("ste".toList).isPrefixOf st.text then
    ordMatchEnd st.text
  else none

/-- One iteration of the `while` loop of `split_number_word`: longest-match
lookup over the length-sorted vocabulary, then the ordinal-suffix branch
(which discards both the suffix and any pending `invalid_word`), then the
character branches. -/
def splitStep (st : SplitState) : SplitState :=
  match List.find? (fun sw => sw.isPrefixOf st.text) ALL_WORDS_SORTED_REVERSE with
  | some sw =>
    ⟨st.text.drop sw.length, [], st.result ++ flushInvalid st.invalid ++ [sw]⟩
  | none =>
    match ordSuffixEnd st with
    | some e => ⟨st.text.drop e, [], st.result⟩
    | none =>
      match st.text with
      | [] => st
      | c :: cs =>
        if c ≠ ' ' then ⟨cs, st.invalid ++ [c], st.result⟩
        else ⟨cs, [], st.result ++ flushInvalid st.invalid⟩

/-- The loop driver: runs `splitStep` until `text` is empty, then flushes the
pending `invalid_word`.  Any fuel at least `st.text.length` runs the loop to
completion because each iteration strictly shortens `text`. -/
def splitRunF : Nat → SplitState → List (List Char)
  | 0, st => st.result ++ flushInvalid st.invalid
  | fuel + 1, st =>
    if st.text = [] then st.result ++ flushInvalid st.invalid
    else splitRunF fuel (splitStep st)

/-- `Dutch.split_number_word` (dutch.py:190-234), returning the emitted items
of the result string (the Python return value is these items, each followed by
one space). -/
def split_number_word (word : List Char) : List (List Char) :=
  splitRunF (lowerStr word).length ⟨lowerStr word, [], []⟩

/-!
## `Dutch.ord2card`
-/

/-- `Dutch.ord2card` (dutch.py:147-181). -/
def ord2card (word : List Char) : Option (List Char) :=
  if 4 < word.length then
    let wordBase : Option (List Char) :=
      if ("ter".toList).isSuffixOf word ∨ ("tes".toList).isSuffixOf word ∨
          ("ten".toList).isSuffixOf word then
        some (lowerStr word.dropLast)
      else if ("te".toList).isSuffixOf word then some (lowerStr word)
      else none
    match wordBase with
    | none => none
    | some wb =>
      match List.lookup wb ORDINALS_FIXED_NL with
      | some v => some v
      | none =>
        let wb := wb.dropLast.dropLast
        let wb := if ("s".toList).isSuffixOf wb then wb.dropLast else wb
        if wb ∈ NUMBER_DICT_NL_KEYS then some wb
        else if NUMBER_DICT_NL_KEYS.any (fun k => k.isSuffixOf wb) then
          let parts := split_number_word wb
          match parts.getLast? with
          | some lastPart =>
            if lastPart ∈ NUMBER_DICT_NL_KEYS then some parts.flatten else none
          | none => none
        else none
  else none

/-!
## `postprocess.DecimalMerger`

The two compiled patterns
`\b\d+\{decimal_sym}\d{1,max_group}\b` and `\b\d{1,max_group}\b`
are hand-compiled below.  The separator is modelled as a single literal,
non-word character (the class is instantiated with `"."`); `re.search` is the
scan `searchAux` that attempts a match at every position.
-/

/-- Constructor state of `DecimalMerger.__init__` (postprocess.py:6-13). -/
structure Merger where
  sym : Char
  maxDecimal : Nat
  maxGroup : Nat
deriving Repr, DecidableEq

/-- Word-boundary test on the left of a match whose first character is a word
character: the preceding character must be absent or not a word character. -/
def prevNonWord (prev : Option Char) : Bool :=
  match prev with
  | none => true
  | some c => !isWordCh c

/-- `\b` test to the right of a match whose last character is a word
character. -/
def nonWordAt (l : List Char) : Bool :=
  match l with
  | [] => true
  | c :: _ => !isWordCh c

/-- `\d{1,k}\b` at the start of `rest`, greedy with backtracking: the longest
digit count `≤ k` followed by a boundary wins. -/
def fracTail (rest : List Char) : Nat → Bool
  | 0 => false
  | k + 1 =>
    ((rest.take (k + 1)).length = k + 1 && (rest.take (k + 1)).all isDigitCh &&
        nonWordAt (rest.drop (k + 1))) ||
      fracTail rest k

/-- `\b\d+\{sym}\d{1,max_group}\b` anchored at the current position (`\d+` is
greedy; the separator is not a digit, so no backtracking into `\d+` can
succeed). -/
def decMatchAt (m : Merger) (prev : Option Char) (t : List Char) : Bool :=
  prevNonWord prev &&
    (let ds := t.takeWhile isDigitCh
     !ds.isEmpty && (t.drop ds.length).head? = some m.sym &&
       fracTail (t.drop (ds.length + 1)) m.maxGroup)

/-- `\b\d{1,max_group}\b` anchored at the current position. -/
def grpMatchAt (m : Merger) (prev : Option Char) (t : List Char) : Bool :=
  prevNonWord prev && fracTail t m.maxGroup

/-- `re.search`: attempt the anchored matcher at every position, tracking the
previous character for the `\b` test. -/
def searchAux (f : Option Char → List Char → Bool) : Option Char → List Char → Bool
  | _, [] => false
  | prev, c :: cs => f prev (c :: cs) || searchAux f (some c) cs

/-- `re.search(self.dec_ptrn, token)`. -/
def decSearch (m : Merger) (t : List Char) : Bool := searchAux (decMatchAt m) none t

/-- `re.search(self.grp_ptrn, token)`. -/
def grpSearch (m : Merger) (t : List Char) : Bool := searchAux (grpMatchAt m) none t

/-- Python `str.split(sep)` for a one-character separator. -/
def pySplit (sym : Char) : List Char → List (List Char)
  | [] => [[]]
  | c :: cs =>
    if c = sym then [] :: pySplit sym cs
    else
      match pySplit sym cs with
      | p :: ps => (c :: p) :: ps
      | [] => [[c]]

/-- `decimal.split(self.decimal_sym)[1]` — the fractional part of the buffered
decimal.  Index 1 exists whenever `decimal` contains the separator, which is
the case for every buffered decimal (it matched `dec_ptrn`); the `getD`
default is never reached there. -/
def fracPart (m : Merger) (dec : List Char) : List Char :=
  (pySplit m.sym dec).getD 1 []

/-- The token loop of `DecimalMerger.merge_decimals` (postprocess.py:15-50),
with state `(in_decimal, decimal)`.  After the `else` flush the Python
`decimal` variable goes stale and is always reassigned before its next read,
so it is reset to `[]` here. -/
def mergeAux (m : Merger) : List (List Char) → Bool → List Char → List (List Char)
  | [], inDec, dec => if inDec then [dec] else []
  | t :: ts, inDec, dec =>
    if decSearch m t then
      (if inDec then [dec] else []) ++ mergeAux m ts true t
    else if inDec then
      if grpSearch m t ∧ t.length + (fracPart m dec).length ≤ m.maxDecimal then
        mergeAux m ts true (dec ++ t)
      else dec :: t :: mergeAux m ts false []
    else t :: mergeAux m ts false []

/-- `DecimalMerger.merge_decimals`. -/
def merge_decimals (m : Merger) (tokens : List (List Char)) : List (List Char) :=
  mergeAux m tokens false []

/-!
## `postprocess.CurrencyFormatter`

The pattern
`\b(\d+|un[oa]?) (euros?|dollars?|dólare?s?|dolare?s?|con)( con| y con| y)?( \d{1,3}| un[oa]?)?( céntimos?| centimos?| centavos?)?`
is compiled with `re.IGNORECASE`.  Alternatives are expanded in the regex
engine's backtracking order (alternation left to right, each greedy `?`
preferring presence); only group 1 needs real backtracking because everything
after group 2 is optional.
-/

/-- Case-insensitive literal prefix test (`pat` is given lowercase). -/
def ciStarts (pat : List Char) (t : List Char) : Bool :=
  lowerStr (t.take pat.length) = pat

/-- Expansion of `(euros?|dollars?|dólare?s?|dolare?s?|con)` in backtracking
order. -/
def CURR_WHOLE_ALTS : List (List Char) :=
  ["euros".toList, "euro".toList,
   "dollars".toList, "dollar".toList,
   "dólares".toList, "dólare".toList, "dólars".toList, "dólar".toList,
   "dolares".toList, "dolare".toList, "dolars".toList, "dolar".toList,
   "con".toList]

/-- Expansion of `( con| y con| y)?`'s alternatives. -/
def CURR_CONJ_ALTS : List (List Char) :=
  [" con".toList, " y con".toList, " y".toList]

/-- Expansion of `( céntimos?| centimos?| centavos?)?`'s alternatives. -/
def CURR_FRACTION_ALTS : List (List Char) :=
  [" céntimos".toList, " céntimo".toList,
   " centimos".toList, " centimo".toList,
   " centavos".toList, " centavo".toList]

/-- Length of the first alternative that matches case-insensitively at the
start of `t`, if any. -/
def firstAltLen (alts : List (List Char)) (t : List Char) : Option Nat :=
  match alts with
  | [] => none
  | a :: rest => if ciStarts a t then some a.length else firstAltLen rest t

/-- Group 4, `( \d{1,3}| un[oa]?)?`: a space followed by one to three digits
(greedy), or a space followed by `un` with an optional `o`/`a`. -/
def currG4Len (t : List Char) : Option Nat :=
  match t with
  | ' ' :: rest =>
    let ds := (rest.takeWhile isDigitCh).take 3
    if !ds.isEmpty then some (1 + ds.length)
    else if ciStarts ("un".toList) rest then
      match (rest.drop 2).head? with
      | some c => if toLowerCh c = 'o' || toLowerCh c = 'a' then some 4 else some 3
      | none => some 3
    else none
  | _ => none

/-- Candidate lengths for group 1, `(\d+|un[oa]?)`, in backtracking order.
When the position starts with digits only the maximal digit run can be
followed by the mandatory space, so it is the single candidate. -/
def currG1Cands (t : List Char) : List Nat :=
  let ds := t.takeWhile isDigitCh
  if !ds.isEmpty then [ds.length]
  else if ciStarts ("un".toList) t then
    (match (t.drop 2).head? with
     | some c => if toLowerCh c = 'o' || toLowerCh c = 'a' then [3, 2] else [2]
     | none => [2]) 
  else []

/-- Attempt the currency pattern at the current position with a fixed group-1
length; returns `(total length, group 1, group 2, group 4?)` on success,
with groups as raw (original-case) slices. -/
def currMatchWith (t : List Char) (g1 : Nat) :
    Option (Nat × List Char × List Char × Option (List Char)) :=
  let after := t.drop g1
  match after.head? with
  | some ' ' =>
    let t2 := after.drop 1
    match firstAltLen CURR_WHOLE_ALTS t2 with
    | some g2 =>
      let t3 := t2.drop g2
      let g3 := (firstAltLen CURR_CONJ_ALTS t3).getD 0
      let t4 := t3.drop g3
      let g4 := (currG4Len t4).getD 0
      let t5 := t4.drop g4
      let g5 := (firstAltLen CURR_FRACTION_ALTS t5).getD 0
      some (g1 + 1 + g2 + g3 + g4 + g5, t.take g1, t2.take g2,
        if g4 = 0 then none else some (t4.take g4))
    | none => none
  | _ => none

/-- Attempt the currency pattern at the current position (`\b` then the
group-1 candidates in backtracking order). -/
def currMatchAt (prev : Option Char) (t : List Char) :
    Option (Nat × List Char × List Char × Option (List Char)) :=
  if prevNonWord prev then
    (currG1Cands t).firstM (fun g1 => currMatchWith t g1)
  else none

/-- Python `str.strip`. -/
def pyStrip (s : List Char) : List Char :=
  ((s.dropWhile isPySpace).reverse.dropWhile isPySpace).reverse

/-- Python `str.zfill(2)` on the digit strings reachable here. -/
def zfill2 (s : List Char) : List Char :=
  List.replicate (2 - s.length) '0' ++ s

/-- `CurrencyFormatter.re_sub` (postprocess.py:71-78): builds
`f"{curr}{whole}.{fract.zfill(2)}"`. -/
def currReplace (g1 g2 : List Char) (g4 : Option (List Char)) : List Char :=
  let whole :=
    let w := pyStrip (lowerStr g1)
    if w = "un".toList || w = "uno".toList || w = "una".toList then "1".toList else w
  let fract :=
    match g4 with
    | some f => pyStrip (lowerStr f)
    | none => "00".toList
  let curr := if ("eu".toList).isPrefixOf g2 then "€".toList else "$".toList
  curr ++ whole ++ ".".toList ++ zfill2 fract

/-- `re.sub(self.re_ptrn, self.re_sub, text)`: leftmost scan, replacing each
non-overlapping match and continuing after it.  Matches are at least one
character long, so fuel `text.length` completes the scan. -/
def currSubAux : Nat → Option Char → List Char → List Char
  | 0, _, t => t
  | _ + 1, _, [] => []
  | fuel + 1, prev, c :: cs =>
    match currMatchAt prev (c :: cs) with
    | some (len, g1, g2, g4) =>
      currReplace g1 g2 g4 ++
        currSubAux fuel (((c :: cs).take len).getLast? ) ((c :: cs).drop len)
    | none => c :: currSubAux fuel (some c) cs

/-- The substitution computed (and printed, but not returned) by
`CurrencyFormatter.format_currency`. -/
def currencySub (text : List Char) : List Char :=
  currSubAux text.length none text

/-- `CurrencyFormatter.format_currency` (postprocess.py:80-85): computes the
substitution `x`, prints it when it differs from `text`, and returns `text`
unchanged. -/
def format_currency (text : List Char) : List Char :=
  let _x := currencySub text
  text

/-!
## `postprocess.PostProcessorES.format_time`

`TIME_REGEX = \b(son las|es la)\s+(2[0-4]|[01]?\d)( y ([0-5]?\d|60))?` with
`re.IGNORECASE`.  The callback `re_sub_time` evaluates `mn.zfill(2)` with
`mn = match.group(4)`; when the minutes clause is absent `mn` is `None` and
the call raises `AttributeError`, modelled as `Except.error ()` propagating
out of the substitution.
-/

/-- The hour group `(2[0-4]|[01]?\d)`: the first alternative, else the
greedy optional `[01]?` with backtracking into `\d`.  Returns the number of
digits consumed. -/
def timeHourLen (t : List Char) : Option Nat :=
  match t with
  | c1 :: c2 :: _ =>
    if c1 = '2' && ('0' ≤ c2 && c2 ≤ '4') then some 2
    else if (c1 = '0' || c1 = '1') && isDigitCh c2 then some 2
    else if isDigitCh c1 then some 1
    else none
  | [c1] => if isDigitCh c1 then some 1 else none
  | [] => none

/-- The minutes group `([0-5]?\d|60)` (the literal `60` alternative is
unreachable because `\d` already accepts `6`, but it is kept in order). -/
def timeMinLen (t : List Char) : Option Nat :=
  match t with
  | c1 :: c2 :: _ =>
    if ('0' ≤ c1 && c1 ≤ '5') && isDigitCh c2 then some 2
    else if isDigitCh c1 then some 1
    else if c1 = '6' && c2 = '0' then some 2
    else none
  | [c1] => if isDigitCh c1 then some 1 else none
  | [] => none

/-- Attempt `TIME_REGEX` at the current position; returns
`(total length, group 1, group 2, group 4?)` with raw slices. -/
def timeMatchAt (prev : Option Char) (t : List Char) :
    Option (Nat × List Char × List Char × Option (List Char)) :=
  if prevNonWord prev then
    let g1len : Option Nat :=
      if ciStarts ("son las".toList) t then some 7
      else if ciStarts ("es la".toList) t then some 5
      else none
    match g1len with
    | none => none
    | some g1 =>
      let sp := ((t.drop g1).takeWhile isPySpace).length
      if sp = 0 then none
      else
        let t2 := t.drop (g1 + sp)
        match timeHourLen t2 with
        | none => none
        | some hr =>
          let t3 := t2.drop hr
          let g3 : Nat × Option (List Char) :=
            if (" y ".toList).isPrefixOf t3 then
              match timeMinLen (t3.drop 3) with
              | some mn => (3 + mn, some ((t3.drop 3).take mn))
              | none => (0, none)
            else (0, none)
          some (g1 + sp + hr + g3.1, t.take g1, t2.take hr, g3.2)
  else none

/-- `PostProcessorES.re_sub_time` (postprocess.py:123-129): builds
`f"{txt} {hr}:{mn.zfill(2)}"`, raising `AttributeError` (modelled as
`Except.error ()`) when the minutes group is `None`. -/
def reSubTime (g1 hr : List Char) (mn : Option (List Char)) :
    Except Unit (List Char) :=
  match mn with
  | none => Except.error ()
  | some m => Except.ok (g1 ++ [' '] ++ hr ++ [':'] ++ zfill2 m)

/-- `TIME_REGEX.sub(self.re_sub_time, text)`: leftmost scan; an exception in
the callback aborts the whole substitution. -/
def timeSubAux : Nat → Option Char → List Char → Except Unit (List Char)
  | 0, _, t => Except.ok t
  | _ + 1, _, [] => Except.ok []
  | fuel + 1, prev, c :: cs =>
    match timeMatchAt prev (c :: cs) with
    | some (len, g1, hr, mn) =>
      match reSubTime g1 hr mn with
      | Except.error e => Except.error e
      | Except.ok rep =>
        match timeSubAux fuel (((c :: cs).take len).getLast?) ((c :: cs).drop len) with
        | Except.error e => Except.error e
        | Except.ok rest => Except.ok (rep ++ rest)
    | none =>
      match timeSubAux fuel (some c) cs with
      | Except.error e => Except.error e
      | Except.ok rest => Except.ok (c :: rest)

/-- `PostProcessorES.format_time` (postprocess.py:131-133). -/
def format_time (text : List Char) : Except Unit (List Char) :=
  timeSubAux text.length none text

/-!
## Helper lemmas
-/

set_option maxRecDepth 4000 in
/-- Every vocabulary word of the segmenter is nonempty. -/
theorem allWords_pos : ∀ w ∈ ALL_WORDS_SORTED_REVERSE, 0 < w.length := by decide

/-- An ordinal-suffix alternative never consumes less than its own length. -/
theorem ordAltEnd_le {alt text : List Char} {e : Nat}
    (h : ordAltEnd alt text = some e) : alt.length ≤ e := by
  unfold ordAltEnd at h
  split at h
  · cases hd : text.drop alt.length with
    | nil => rw [hd] at h; injection h with h; omega
    | cons c cs =>
      rw [hd] at h
      cases hsp : isPySpace c with
      | true => simp [hsp] at h; omega
      | false => simp [hsp] at h
  · cases h

/-- A successful ordinal-suffix match consumes at least one character. -/
theorem ordMatchEnd_pos {text : List Char} {e : Nat}
    (h : ordMatchEnd text = some e) : 0 < e := by
  have l1 : ("ster".toList).length = 4 := rfl
  have l2 : ("stes".toList).length = 4 := rfl
  have l3 : ("sten".toList).length = 4 := rfl
  have l4 : ("ste".toList).length = 3 := rfl
  unfold ordMatchEnd at h
  cases h1 : ordAltEnd ("ster".toList) text with
  | some e1 =>
    rw [h1] at h; injection h with h; subst h
    have := ordAltEnd_le h1; omega
  | none =>
    rw [h1] at h
    cases h2 : ordAltEnd ("stes".toList) text with
    | some e2 =>
      rw [h2] at h; injection h with h; subst h
      have := ordAltEnd_le h2; omega
    | none =>
      rw [h2] at h
      cases h3 : ordAltEnd ("sten".toList) text with
      | some e3 =>
        rw [h3] at h; injection h with h; subst h
        have := ordAltEnd_le h3; omega
      | none =>
        rw [h3] at h
        have := ordAltEnd_le h; omega

/-- The guarded ordinal-suffix probe consumes at least one character. -/
theorem ordSuffixEnd_pos {st : SplitState} {e : Nat}
    (h : ordSuffixEnd st = some e) : 0 < e := by
  unfold ordSuffixEnd at h
  split at h
  · exact ordMatchEnd_pos h
  · cases h

/-- Each iteration of the `split_number_word` loop strictly shortens the
remaining text (general form, also used for the loop's fuel argument). -/
theorem splitStep_len (st : SplitState) (h : st.text ≠ []) :
    (splitStep st).text.length < st.text.length := by
  obtain ⟨text, invalid, result⟩ := st
  cases text with
  | nil => exact absurd rfl h
  | cons c cs =>
    show (splitStep ⟨c :: cs, invalid, result⟩).text.length < (c :: cs).length
    cases hf : List.find? (fun sw => sw.isPrefixOf (c :: cs)) ALL_WORDS_SORTED_REVERSE with
    | some sw =>
      have hmem := List.mem_of_find?_eq_some hf
      have hsw : 0 < sw.length := allWords_pos sw hmem
      have hstep : splitStep ⟨c :: cs, invalid, result⟩ =
          ⟨(c :: cs).drop sw.length, [], result ++ flushInvalid invalid ++ [sw]⟩ := by
        simp [splitStep, hf]
      rw [hstep]
      simp only [List.length_drop, List.length_cons]
      omega
    | none =>
      cases ho : ordSuffixEnd ⟨c :: cs, invalid, result⟩ with
      | some e =>
        have he := ordSuffixEnd_pos ho
        have hstep : splitStep ⟨c :: cs, invalid, result⟩ =
            ⟨(c :: cs).drop e, [], result⟩ := by
          simp [splitStep, hf, ho]
        rw [hstep]
        simp only [List.length_drop, List.length_cons]
        omega
      | none =>
        by_cases hc : c = ' '
        · subst hc
          have hstep : splitStep ⟨' ' :: cs, invalid, result⟩ =
              ⟨cs, [], result ++ flushInvalid invalid⟩ := by
            simp [splitStep, hf, ho]
          rw [hstep]
          simp
        · have hstep : splitStep ⟨c :: cs, invalid, result⟩ =
              ⟨cs, invalid ++ [c], result⟩ := by
            simp [splitStep, hf, ho, hc]
          rw [hstep]
          simp

/-- A list equality gives a subsequence. -/
theorem sublist_of_eq {α : Type} {a b : List α} (h : a = b) : a.Sublist b :=
  h ▸ List.Sublist.refl a

/-- Flattening the flushed `invalid_word` recovers exactly its characters. -/
theorem flushInvalid_flatten (invalid : List Char) :
    (flushInvalid invalid).flatten = invalid := by
  unfold flushInvalid
  split
  · simp [*]
  · simp

/-- A matched vocabulary word followed by the advanced cursor recovers the
text. -/
theorem isPrefixOf_append_drop {sw text : List Char}
    (h : sw.isPrefixOf text = true) : sw ++ text.drop sw.length = text := by
  obtain ⟨t, ht⟩ := List.isPrefixOf_iff_prefix.mp h
  subst ht
  simp

/-- Loop invariant of `split_number_word`: the characters the loop has yet to
emit form a subsequence of the characters already emitted, the pending
buffer, and the remaining text. -/
theorem splitRunF_flatten_sublist :
    ∀ (fuel : Nat) (st : SplitState),
      List.Sublist (splitRunF fuel st).flatten
        (st.result.flatten ++ st.invalid ++ st.text) := by
  intro fuel
  induction fuel with
  | zero =>
    intro st
    show List.Sublist (st.result ++ flushInvalid st.invalid).flatten _
    rw [List.flatten_append, flushInvalid_flatten]
    exact List.sublist_append_left _ _
  | succ fuel ih =>
    rintro ⟨text, invalid, result⟩
    cases text with
    | nil =>
      show List.Sublist (splitRunF (fuel + 1) ⟨[], invalid, result⟩).flatten
        (result.flatten ++ invalid ++ [])
      rw [show splitRunF (fuel + 1) ⟨[], invalid, result⟩
          = result ++ flushInvalid invalid from by simp [splitRunF]]
      rw [List.flatten_append, flushInvalid_flatten]
      simp
    | cons c cs =>
      show List.Sublist (splitRunF (fuel + 1) ⟨c :: cs, invalid, result⟩).flatten
        (result.flatten ++ invalid ++ (c :: cs))
      have hrun : splitRunF (fuel + 1) ⟨c :: cs, invalid, result⟩
          = splitRunF fuel (splitStep ⟨c :: cs, invalid, result⟩) := by
        simp [splitRunF]
      cases hf : List.find? (fun sw => sw.isPrefixOf (c :: cs)) ALL_WORDS_SORTED_REVERSE with
      | some sw =>
        have hpre : sw.isPrefixOf (c :: cs) = true := by
          have := List.find?_some hf
          simpa using this
        have hstep : splitStep ⟨c :: cs, invalid, result⟩ =
            ⟨(c :: cs).drop sw.length, [], result ++ flushInvalid invalid ++ [sw]⟩ := by
          simp [splitStep, hf]
        rw [hrun, hstep]
        have h1 := ih ⟨(c :: cs).drop sw.length, [], result ++ flushInvalid invalid ++ [sw]⟩
        dsimp only at h1
        refine h1.trans (sublist_of_eq ?_)
        simp only [List.flatten_append, List.flatten_cons, List.flatten_nil,
          flushInvalid_flatten, List.append_nil, List.append_assoc]
        rw [isPrefixOf_append_drop hpre]
      | none =>
        cases ho : ordSuffixEnd ⟨c :: cs, invalid, result⟩ with
        | some e =>
          have hstep : splitStep ⟨c :: cs, invalid, result⟩ =
              ⟨(c :: cs).drop e, [], result⟩ := by
            simp [splitStep, hf, ho]
          rw [hrun, hstep]
          have h1 := ih ⟨(c :: cs).drop e, [], result⟩
          dsimp only at h1
          rw [List.append_nil] at h1
          refine h1.trans ?_
          rw [List.append_assoc]
          exact List.Sublist.append_left
            ((List.drop_sublist e (c :: cs)).trans
              (List.sublist_append_right invalid (c :: cs))) _
        | none =>
          by_cases hc : c = ' '
          · subst hc
            have hstep : splitStep ⟨' ' :: cs, invalid, result⟩ =
                ⟨cs, [], result ++ flushInvalid invalid⟩ := by
              simp [splitStep, hf, ho]
            rw [hrun, hstep]
            have h1 := ih ⟨cs, [], result ++ flushInvalid invalid⟩
            dsimp only at h1
            rw [List.append_nil, List.flatten_append, flushInvalid_flatten] at h1
            refine h1.trans ?_
            exact List.Sublist.append_left (List.sublist_cons_self ' ' cs) _
          · have hstep : splitStep ⟨c :: cs, invalid, result⟩ =
                ⟨cs, invalid ++ [c], result⟩ := by
              simp [splitStep, hf, ho, hc]
            rw [hrun, hstep]
            have h1 := ih ⟨cs, invalid ++ [c], result⟩
            dsimp only at h1
            refine h1.trans (sublist_of_eq ?_)
            simp [List.append_assoc]

/-!
## Claims C1, C5, C10 — the segmenter
-/

/-- C1 (counterexample): for the input word `"twintigste"` the concatenation
of the emitted sub-words and literal spans is `"twintig"`, not the original
word — segmentation is not lossless. -/
theorem split_lossless_counterexample :
    (split_number_word ("twintigste".toList)).flatten ≠ "twintigste".toList := by
  decide

set_option maxRecDepth 2000 in
/-- C1 (amended): concatenating the emitted sub-words and literal spans of
`split_number_word` yields a subsequence of the lowercased input word — the
input with the consumed ordinal-suffix spans, the characters the ordinal
branch discards from the pending buffer, and space characters removed; no
characters are invented or reordered, but exact reproduction fails. -/
theorem split_join_sublist (word : List Char) :
    List.Sublist (split_number_word word).flatten (lowerStr word) := by
  have h := splitRunF_flatten_sublist (lowerStr word).length ⟨lowerStr word, [], []⟩
  simpa [split_number_word] using h

/-- C5: on the failing input `"twintigste"` the code consumes the trailing
ordinal suffix `"ste"` and drops it entirely: the output is `["twintig"]`,
so no emitted word carries the suffix (the fusion statement at dutch.py:220
is commented out). -/
theorem split_drops_ordinal_suffix :
    split_number_word ("twintigste".toList) = ["twintig".toList] := by
  decide

/-- C10: each iteration of the scanning loop of `split_number_word` strictly
decreases the length of the remaining unprocessed text. -/
theorem splitStep_strict_decrease (st : SplitState) (h : st.text ≠ []) :
    (splitStep st).text.length < st.text.length :=
  splitStep_len st h

/-- C10 (witness): the strict decrease at the concrete state with remaining
text `"a"`. -/
theorem splitStep_strict_decrease_witness :
    (⟨"a".toList, [], []⟩ : SplitState).text ≠ [] ∧
      (splitStep ⟨"a".toList, [], []⟩).text.length <
        (⟨"a".toList, [], []⟩ : SplitState).text.length :=
  ⟨by decide, splitStep_strict_decrease ⟨"a".toList, [], []⟩ (by decide)⟩

/-!
## Claims C2, C3, C4 — the structured-span normalizer
-/

/-- C2: `format_currency` applied to `"3 euros con cincuenta céntimos"`
returns the input unchanged, not `"€3.50"` — the computed substitution is
only printed; and even that substitution is `"€3.00 cincuenta céntimos"`,
because the fraction group of the pattern matches only digits or un-forms,
never `"cincuenta"`. -/
theorem format_currency_discards_substitution :
    format_currency ("3 euros con cincuenta céntimos".toList) =
        "3 euros con cincuenta céntimos".toList ∧
      currencySub ("3 euros con cincuenta céntimos".toList) =
        "€3.00 cincuenta céntimos".toList := by
  constructor
  · rfl
  · decide

/-- C3: `format_currency` returns its input unchanged for every input — the
computed substitution is never part of the returned value. -/
theorem format_currency_identity (text : List Char) :
    format_currency text = text := rfl

/-- C4: `format_time` on a text where the time pattern matches with the
minutes clause absent raises (here: `Except.error`, the model of the
`AttributeError` from `None.zfill(2)`), instead of returning normally; with
the minutes clause present it rewrites as claimed. -/
theorem format_time_errors_without_minutes :
    format_time ("son las 8".toList) = Except.error () ∧
      format_time ("son las 8 y 5".toList) = Except.ok ("son las 8:05".toList) := by
  constructor
  · rfl
  · rfl

/-!
## Claims C6, C7 — the ordinal converter
-/

/-- C6: the irregular-ordinal surface forms named by the claim are not
converted: `ord2card` returns `none` on `"eerste"`, `"derde"` and `"nulde"`
(`"achtste"` succeeds, but only through the suffix-stripping rules).  The
irregular map `ORDINALS_FIXED_NL` is keyed by cardinals, so its lookup in
`ord2card` never fires on an ordinal input. -/
theorem ord2card_irregulars_fail :
    ord2card ("eerste".toList) = none ∧
      ord2card ("derde".toList) = none ∧
      ord2card ("nulde".toList) = none ∧
      ord2card ("achtste".toList) = some ("acht".toList) := by
  refine ⟨by decide, by decide, by decide, by decide⟩

/-- C7: `ord2card` maps the compound ordinal `"tweeëntwintigste"` to the
cardinal `"tweeëntwintig"` (via suffix stripping and the lexicon test). -/
theorem ord2card_tweeentwintigste :
    ord2card ("tweeëntwintigste".toList) = some ("tweeëntwintig".toList) := by
  decide

/-!
## Claims C8, C9 — the decimal merger
-/

/-- C8: `merge_decimals` with separator `'.'`, maximum fraction length 4 and
maximum group size 2 merges `["3.1", "2", "3"]` into `["3.123"]`. -/
theorem merge_decimals_example :
    merge_decimals ⟨'.', 4, 2⟩ ["3.1".toList, "2".toList, "3".toList] =
      ["3.123".toList] := by
  decide

/-- C9 (counterexample): with the constructor defaults (separator `'.'`,
maximum fraction length 40, maximum group size 2), merging
`["1.2", "3.4", "5", "6"]` yields `["1.2", "3.456"]`, and merging again
yields `["1.23.456"]` — `merge_decimals` is not idempotent. -/
theorem merge_decimals_not_idempotent :
    merge_decimals ⟨'.', 40, 2⟩ (merge_decimals ⟨'.', 40, 2⟩
        ["1.2".toList, "3.4".toList, "5".toList, "6".toList]) ≠
      merge_decimals ⟨'.', 40, 2⟩
        ["1.2".toList, "3.4".toList, "5".toList, "6".toList] := by
  decide

/-!
## Idempotence analysis of `merge_decimals`

A second pass over an output of `merge_decimals` can only differ from the
identity by merging a token into the buffer, and the first such merge
would have to involve two adjacent output tokens.  `safePair` states that
an adjacent pair cannot be merged; outputs of `merge_decimals` are
`safePair`-chained whenever `max_decimal ≤ 3`, because every extended
buffer is at least 4 characters long.
-/

/-- Adjacent-output safety: if `x` matches the decimal pattern, its successor
`y` either matches it too (so a second pass flushes `x` and buffers `y`) or
fails the merge test against `x`'s fractional part. -/
def safePair (m : Merger) (x y : List Char) : Prop :=
  decSearch m x = true →
    decSearch m y = true ∨
      ¬(grpSearch m y = true ∧ y.length + (fracPart m x).length ≤ m.maxDecimal)

/-- A successful `\d{1,k}\b` match needs at least one character. -/
theorem fracTail_pos {rest : List Char} :
    ∀ {k : Nat}, fracTail rest k = true → 1 ≤ rest.length := by
  intro k
  induction k with
  | zero => intro h; simp [fracTail] at h
  | succ k ih =>
    intro h
    simp only [fracTail, Bool.or_eq_true, Bool.and_eq_true, decide_eq_true_eq] at h
    rcases h with ⟨⟨hlen, _⟩, _⟩ | h
    · have := List.length_take (k + 1) rest
      omega
    · exact ih h

/-- A token matching the decimal pattern at some position has at least three
characters. -/
theorem decMatchAt_three (m : Merger) {prev : Option Char} {t : List Char}
    (h : decMatchAt m prev t = true) : 3 ≤ t.length := by
  simp only [decMatchAt, Bool.and_eq_true, decide_eq_true_eq,
    Bool.not_eq_true'] at h
  obtain ⟨_, ⟨⟨hne, hhead⟩, hfrac⟩⟩ := h
  have hds : 1 ≤ (t.takeWhile isDigitCh).length := by
    have : t.takeWhile isDigitCh ≠ [] := by
      intro hcontra
      rw [hcontra] at hne
      simp at hne
    have := List.length_pos.mpr this
    omega
  have hdrop : t.drop (t.takeWhile isDigitCh).length ≠ [] := by
    intro hcontra
    rw [hcontra] at hhead
    cases hhead
  have h1 := List.length_pos.mpr hdrop
  rw [List.length_drop] at h1
  have h2 := fracTail_pos hfrac
  rw [List.length_drop] at h2
  omega

/-- A token matching the decimal pattern anywhere has at least three
characters. -/
theorem searchAuxDec_three (m : Merger) :
    ∀ (t : List Char) (prev : Option Char),
      searchAux (decMatchAt m) prev t = true → 3 ≤ t.length := by
  intro t
  induction t with
  | nil => intro prev h; simp [searchAux] at h
  | cons c cs ih =>
    intro prev h
    simp only [searchAux, Bool.or_eq_true] at h
    rcases h with h | h
    · exact decMatchAt_three m h
    · have := ih (some c) h
      simp only [List.length_cons]
      omega

/-- `dec_ptrn` matches only tokens of length at least three. -/
theorem decSearch_three (m : Merger) {t : List Char} (h : decSearch m t = true) :
    3 ≤ t.length :=
  searchAuxDec_three m t none h

/-- `grp_ptrn` never matches the empty token. -/
theorem grpSearch_pos (m : Merger) {t : List Char} (h : grpSearch m t = true) :
    0 < t.length := by
  cases t with
  | nil => simp [grpSearch, searchAux] at h
  | cons c cs => simp

/-- With the buffer live, the first output of the merge loop is the buffer
itself, possibly extended (and then strictly longer). -/
theorem mergeAux_true_head (m : Merger) :
    ∀ (l : List (List Char)) (b : List Char),
      ∃ hd rest, mergeAux m l true b = hd :: rest ∧
        (hd = b ∨ b.length + 1 ≤ hd.length) := by
  intro l
  induction l with
  | nil => intro b; exact ⟨b, [], by simp [mergeAux], Or.inl rfl⟩
  | cons t ts ih =>
    intro b
    by_cases h1 : decSearch m t = true
    · refine ⟨b, mergeAux m ts true t, ?_, Or.inl rfl⟩
      simp [mergeAux, h1]
    · by_cases h2 : grpSearch m t = true ∧
          t.length + (fracPart m b).length ≤ m.maxDecimal
      · obtain ⟨hd, rest, heq, hor⟩ := ih (b ++ t)
        refine ⟨hd, rest, ?_, ?_⟩
        · rw [← heq]; simp [mergeAux, h1, h2]
        · have ht : 0 < t.length := grpSearch_pos m h2.1
          rcases hor with hEq | hLe
          · right; subst hEq; simp only [List.length_append]; omega
          · right; simp only [List.length_append] at hLe; omega
      · refine ⟨b, t :: mergeAux m ts false [], ?_, Or.inl rfl⟩
        simp [mergeAux, h1, h2]

/-- Whenever `max_decimal ≤ 3`, every output of the merge loop is
`safePair`-chained. -/
theorem mergeAux_chain (m : Merger) (hm : m.maxDecimal ≤ 3) :
    ∀ (l : List (List Char)) (inDec : Bool) (dec : List Char),
      List.Chain' (safePair m) (mergeAux m l inDec dec) := by
  intro l
  induction l with
  | nil =>
    intro inDec dec
    cases inDec <;> simp [mergeAux]
  | cons t ts ih =>
    intro inDec dec
    by_cases h1 : decSearch m t = true
    · cases inDec with
      | false =>
        have hout : mergeAux m (t :: ts) false dec = mergeAux m ts true t := by
          simp [mergeAux, h1]
        rw [hout]
        exact ih true t
      | true =>
        have hout : mergeAux m (t :: ts) true dec = dec :: mergeAux m ts true t := by
          simp [mergeAux, h1]
        rw [hout]
        obtain ⟨hd, rest, heq, hor⟩ := mergeAux_true_head m ts t
        rw [heq, List.chain'_cons]
        constructor
        · intro _
          rcases hor with hEq | hLe
          · subst hEq
            exact Or.inl h1
          · right
            rintro ⟨_, hlen⟩
            have h3 := decSearch_three m h1
            omega
        · rw [← heq]
          exact ih true t
    · cases inDec with
      | false =>
        have hout : mergeAux m (t :: ts) false dec = t :: mergeAux m ts false [] := by
          simp [mergeAux, h1]
        rw [hout, List.chain'_cons']
        exact ⟨fun y _ hy => absurd hy h1, ih false []⟩
      | true =>
        by_cases h2 : grpSearch m t = true ∧
            t.length + (fracPart m dec).length ≤ m.maxDecimal
        · have hout : mergeAux m (t :: ts) true dec = mergeAux m ts true (dec ++ t) := by
            simp [mergeAux, h1, h2]
          rw [hout]
          exact ih true (dec ++ t)
        · have hout : mergeAux m (t :: ts) true dec
              = dec :: t :: mergeAux m ts false [] := by
            simp [mergeAux, h1, h2]
          rw [hout, List.chain'_cons]
          refine ⟨fun _ => Or.inr h2, ?_⟩
          rw [List.chain'_cons']
          exact ⟨fun y _ hy => absurd hy h1, ih false []⟩

/-- On a `safePair`-chained token list the merge loop is the identity (both
from the idle state and from a live buffer that heads the chain). -/
theorem mergeAux_fix (m : Merger) :
    ∀ l : List (List Char),
      (List.Chain' (safePair m) l → mergeAux m l false [] = l) ∧
      (∀ dec, decSearch m dec = true → List.Chain' (safePair m) (dec :: l) →
        mergeAux m l true dec = dec :: l) := by
  intro l
  induction l with
  | nil =>
    exact ⟨fun _ => by simp [mergeAux], fun dec _ _ => by simp [mergeAux]⟩
  | cons y ys ih =>
    constructor
    · intro hch
      by_cases h1 : decSearch m y = true
      · have hout : mergeAux m (y :: ys) false [] = mergeAux m ys true y := by
          simp [mergeAux, h1]
        rw [hout]
        exact ih.2 y h1 hch
      · have hout : mergeAux m (y :: ys) false [] = y :: mergeAux m ys false [] := by
          simp [mergeAux, h1]
        rw [hout, ih.1 hch.tail]
    · intro dec hdec hch
      by_cases h1 : decSearch m y = true
      · have hout : mergeAux m (y :: ys) true dec = dec :: mergeAux m ys true y := by
          simp [mergeAux, h1]
        rw [hout, ih.2 y h1 hch.tail]
      · have hcond : ¬(grpSearch m y = true ∧
            y.length + (fracPart m dec).length ≤ m.maxDecimal) := by
          rcases (List.chain'_cons.mp hch).1 hdec with h | h
          · exact absurd h h1
          · exact h
        have hout : mergeAux m (y :: ys) true dec
            = dec :: y :: mergeAux m ys false [] := by
          simp [mergeAux, h1, hcond]
        rw [hout, ih.1 hch.tail.tail]

/-- C9 (amended): `merge_decimals` is idempotent whenever the maximum
fraction length is at most 3 (so that no flushed decimal can re-absorb the
extended decimal that follows it on a second pass). -/
theorem merge_decimals_idempotent_small (m : Merger) (hm : m.maxDecimal ≤ 3)
    (tokens : List (List Char)) :
    merge_decimals m (merge_decimals m tokens) = merge_decimals m tokens :=
  (mergeAux_fix m (merge_decimals m tokens)).1 (mergeAux_chain m hm tokens false [])

/-- C9 (witness): idempotence at the concrete merger `('.', 3, 2)` on
`["3.1", "2"]`. -/
theorem merge_decimals_idempotent_small_witness :
    (⟨'.', 3, 2⟩ : Merger).maxDecimal ≤ 3 ∧
      merge_decimals ⟨'.', 3, 2⟩
          (merge_decimals ⟨'.', 3, 2⟩ ["3.1".toList, "2".toList]) =
        merge_decimals ⟨'.', 3, 2⟩ ["3.1".toList, "2".toList] :=
  ⟨by decide, merge_decimals_idempotent_small ⟨'.', 3, 2⟩ (by decide) _⟩
